import Mathlib

/-!
Verification of the USSD core of `africastalking-rs`.

Shallow embedding of:
* `src/modules/ussd.rs` — the request model (`UssdRequest`), the response
  formatter (`UssdResponse`), the menu builder (`UssdMenu`) and the carrier
  lookup (`NetworkCode`);
* `references/ussd/stateful_example.rs` — the stateful session-flow handler
  (`handle_stateful_ussd`) over an external key-value session store.

The `text` field of a request is modelled as a `List Char` (Rust operates on
the string character-wise via `split('*')`, `matches('*')` and `trim`);
response and menu texts stay `String`.  Rust's `f64` parsing is modelled with
exact rationals (see `parseF64`): rounding to binary64 is not modelled, which
is irrelevant to every property proved here since they only depend on the
accept/reject classification of the parse.
-/

/-! ## Request model (`src/modules/ussd.rs`) -/

/-- Splitting on the `*` delimiter, mirroring Rust `str::split('*')`:
the empty list yields one empty segment, and empty segments are preserved. -/
def splitOnStar : List Char → List (List Char)
  | [] => [[]]
  | c :: cs =>
    if c = '*' then [] :: splitOnStar cs
    else
      match splitOnStar cs with
      | [] => [[c]]
      | s :: ss => (c :: s) :: ss

/-- Number of occurrences of `'*'`, mirroring Rust `text.matches('*').count()`. -/
def countStar : List Char → Nat
  | [] => 0
  | c :: cs => (if c = '*' then 1 else 0) + countStar cs

/-- The USSD request payload (`UssdRequest` in `src/modules/ussd.rs`).
`text` is the gateway's accumulated input, modelled character-wise. -/
structure UssdRequest where
  session_id : String
  service_code : String
  phone_number : String
  text : List Char
  network_code : String
deriving DecidableEq

/-- `UssdRequest::is_initial`: `self.text.is_empty()`. -/
def UssdRequest.is_initial (r : UssdRequest) : Bool :=
  r.text.isEmpty

/-- `UssdRequest::depth`: `0` if `text` is empty, else
`text.matches('*').count() + 1`. -/
def UssdRequest.depth (r : UssdRequest) : Nat :=
  if r.text.isEmpty then 0 else countStar r.text + 1

/-- `UssdRequest::current_input`: `None` if `text` is empty, else
`text.split('*').last()` (the final delimiter-separated segment). -/
def UssdRequest.current_input (r : UssdRequest) : Option (List Char) :=
  if r.text.isEmpty then none else (splitOnStar r.text).getLast?

/-- `UssdRequest::navigation_path`: empty if `text` is empty, else the full
split on the delimiter. -/
def UssdRequest.navigation_path (r : UssdRequest) : List (List Char) :=
  if r.text.isEmpty then [] else splitOnStar r.text

/-- Spec-side description of "the substring of `text` after the last `'*'`":
keep characters from the end until a `'*'` is met. -/
def takeUntilStar : List Char → List Char
  | [] => []
  | c :: cs => if c = '*' then [] else c :: takeUntilStar cs

/-- The suffix of `l` strictly after the last `'*'` (all of `l` when it has
no `'*'`). -/
def afterLastStar (l : List Char) : List Char :=
  (takeUntilStar l.reverse).reverse

/-! ## Response formatter (`src/modules/ussd.rs`) -/

/-- The two response tags (`UssdResponseType` in the source). -/
inductive UssdResponseType where
  | Continue (msg : String)
  | End (msg : String)
deriving DecidableEq

/-- `UssdResponse`: a wrapped response tag. -/
structure UssdResponse where
  content : UssdResponseType
deriving DecidableEq

/-- `UssdResponse::continues`. -/
def UssdResponse.continues (message : String) : UssdResponse :=
  ⟨.Continue message⟩

/-- `UssdResponse::ends`. -/
def UssdResponse.ends (message : String) : UssdResponse :=
  ⟨.End message⟩

/-- `UssdResponse::is_continuing`. -/
def UssdResponse.is_continuing (r : UssdResponse) : Bool :=
  match r.content with
  | .Continue _ => true
  | .End _ => false

/-- `UssdResponse::is_ending`. -/
def UssdResponse.is_ending (r : UssdResponse) : Bool :=
  match r.content with
  | .Continue _ => false
  | .End _ => true

/-- The `fmt::Display` impl for `UssdResponse`:
`write!(f, "CON {}", msg)` resp. `write!(f, "END {}", msg)`. -/
def UssdResponse.render (r : UssdResponse) : String :=
  match r.content with
  | .Continue msg => "CON " ++ msg
  | .End msg => "END " ++ msg

/-! ## Menu builder (`src/modules/ussd.rs`) -/

/-- `UssdMenu`: a title plus ordered `(key, label)` options. -/
structure UssdMenu where
  title : String
  options : List (String × String)
deriving DecidableEq

/-- `UssdMenu::new`. -/
def UssdMenu.new (title : String) : UssdMenu :=
  ⟨title, []⟩

/-- `UssdMenu::add_option`: pushes one `(key, label)` pair at the end. -/
def UssdMenu.add_option (m : UssdMenu) (key label : String) : UssdMenu :=
  ⟨m.title, m.options ++ [(key, label)]⟩

/-- `UssdMenu::format_menu`: starts from the title and appends
`"\n" ++ key ++ ". " ++ label` for each option, in order. -/
def UssdMenu.format_menu (m : UssdMenu) : String :=
  m.options.foldl (fun result kl => result ++ ("\n" ++ kl.1 ++ ". " ++ kl.2)) m.title

/-- `UssdMenu::build_continue`. -/
def UssdMenu.build_continue (m : UssdMenu) : UssdResponse :=
  UssdResponse.continues m.format_menu

/-- `UssdMenu::build_end`. -/
def UssdMenu.build_end (m : UssdMenu) : UssdResponse :=
  UssdResponse.ends m.format_menu

/-- Spec-side menu rendering: the title followed by one `key ++ ". " ++ label`
line per option, joined with newlines (hence no trailing newline). -/
def renderedMenu (title : String) (opts : List (String × String)) : String :=
  String.intercalate "\n" (title :: opts.map fun p => p.1 ++ ". " ++ p.2)

/-! ## Carrier lookup (`src/modules/ussd.rs`) -/

/-- `NetworkCode`: the telco identifiers, with `Unknown` carrying the raw
unmapped code. -/
inductive NetworkCode where
  | AirtelTigoGhana | VodafoneGhana | MtnGhana
  | AirtelNigeria | MtnNigeria | GloNigeria | EtisalatNigeria
  | MtnRwanda | TigoRwanda | AirtelRwanda
  | EthioTelecom
  | SafaricomKenya | AirtelKenya | OrangeKenya | EquitelKenya
  | TigoTanzania | VodacomTanzania | AirtelTanzania
  | AirtelUganda | MtnUganda | AfricellUganda
  | AirtelZambia | MtnZambia
  | TnmMalawi | AirtelMalawi
  | VodacomSouthAfrica | TelkomSouthAfrica | CellcSouthAfrica | MtnSouthAfrica
  | Athena
  | Unknown (code : String)
deriving DecidableEq

/-- `NetworkCode::from_code`: the static match over code strings, defaulting
to `Unknown(code.to_string())`. -/
def NetworkCode.from_code (code : String) : NetworkCode :=
  if code = "62006" then .AirtelTigoGhana
  else if code = "62002" then .VodafoneGhana
  else if code = "62001" then .MtnGhana
  else if code = "62120" then .AirtelNigeria
  else if code = "62130" then .MtnNigeria
  else if code = "62150" then .GloNigeria
  else if code = "62160" then .EtisalatNigeria
  else if code = "63510" then .MtnRwanda
  else if code = "63513" then .TigoRwanda
  else if code = "63514" then .AirtelRwanda
  else if code = "63601" then .EthioTelecom
  else if code = "63902" then .SafaricomKenya
  else if code = "63903" then .AirtelKenya
  else if code = "63907" then .OrangeKenya
  else if code = "63999" then .EquitelKenya
  else if code = "64002" then .TigoTanzania
  else if code = "64004" then .VodacomTanzania
  else if code = "64005" then .AirtelTanzania
  else if code = "64101" then .AirtelUganda
  else if code = "64110" then .MtnUganda
  else if code = "64114" then .AfricellUganda
  else if code = "64501" then .AirtelZambia
  else if code = "64502" then .MtnZambia
  else if code = "65001" then .TnmMalawi
  else if code = "65010" then .AirtelMalawi
  else if code = "65501" then .VodacomSouthAfrica
  else if code = "65502" then .TelkomSouthAfrica
  else if code = "65507" then .CellcSouthAfrica
  else if code = "65510" then .MtnSouthAfrica
  else if code = "99999" then .Athena
  else .Unknown code

/-- The code strings present in the `from_code` lookup table. -/
def knownCodes : List String :=
  ["62006", "62002", "62001", "62120", "62130", "62150", "62160",
   "63510", "63513", "63514", "63601", "63902", "63903", "63907", "63999",
   "64002", "64004", "64005", "64101", "64110", "64114", "64501", "64502",
   "65001", "65010", "65501", "65502", "65507", "65510", "99999"]

/-- `NetworkCode::name`. -/
def NetworkCode.name : NetworkCode → String
  | .AirtelTigoGhana => "AirtelTigo Ghana"
  | .VodafoneGhana => "Vodafone Ghana"
  | .MtnGhana => "MTN Ghana"
  | .AirtelNigeria => "Airtel Nigeria"
  | .MtnNigeria => "MTN Nigeria"
  | .GloNigeria => "Glo Nigeria"
  | .EtisalatNigeria => "Etisalat Nigeria"
  | .MtnRwanda => "MTN Rwanda"
  | .TigoRwanda => "Tigo Rwanda"
  | .AirtelRwanda => "Airtel Rwanda"
  | .EthioTelecom => "EthioTelecom Ethiopia"
  | .SafaricomKenya => "Safaricom Kenya"
  | .AirtelKenya => "Airtel Kenya"
  | .OrangeKenya => "Orange Kenya"
  | .EquitelKenya => "Equitel Kenya"
  | .TigoTanzania => "Tigo Tanzania"
  | .VodacomTanzania => "Vodacom Tanzania"
  | .AirtelTanzania => "Airtel Tanzania"
  | .AirtelUganda => "Airtel Uganda"
  | .MtnUganda => "MTN Uganda"
  | .AfricellUganda => "Africell Uganda"
  | .AirtelZambia => "Airtel Zambia"
  | .MtnZambia => "MTN Zambia"
  | .TnmMalawi => "TNM Malawi"
  | .AirtelMalawi => "Airtel Malawi"
  | .VodacomSouthAfrica => "Vodacom South Africa"
  | .TelkomSouthAfrica => "Telkom South Africa"
  | .CellcSouthAfrica => "CellC South Africa"
  | .MtnSouthAfrica => "MTN South Africa"
  | .Athena => "Athena (Sandbox)"
  | .Unknown _ => "Unknown Network"

/-- `NetworkCode::country`. -/
def NetworkCode.country : NetworkCode → String
  | .AirtelTigoGhana | .VodafoneGhana | .MtnGhana => "Ghana"
  | .AirtelNigeria | .MtnNigeria | .GloNigeria | .EtisalatNigeria => "Nigeria"
  | .MtnRwanda | .TigoRwanda | .AirtelRwanda => "Rwanda"
  | .EthioTelecom => "Ethiopia"
  | .SafaricomKenya | .AirtelKenya | .OrangeKenya | .EquitelKenya => "Kenya"
  | .TigoTanzania | .VodacomTanzania | .AirtelTanzania => "Tanzania"
  | .AirtelUganda | .MtnUganda | .AfricellUganda => "Uganda"
  | .AirtelZambia | .MtnZambia => "Zambia"
  | .TnmMalawi | .AirtelMalawi => "Malawi"
  | .VodacomSouthAfrica | .TelkomSouthAfrica | .CellcSouthAfrica
  | .MtnSouthAfrica => "South Africa"
  | .Athena => "Sandbox"
  | .Unknown _ => "Unknown"

/-! ## Model of Rust `f64` parsing (`"...".parse::<f64>()`)

The grammar of `f64::from_str` is followed: optional sign, then either
`inf`/`infinity`/`nan` (case-insensitive) or a digit mantissa with an
optional fraction part and an optional decimal exponent.  The numeric value
is kept as an exact rational; rounding to binary64 is not modelled.  Every
property proved below depends only on whether a parse is accepted and on the
sign/size classification of modest decimal literals, where the exact model
and binary64 agree. -/

/-- A parsed `f64` value: a finite value (an exact, not necessarily reduced
fraction `num / den` with `den > 0`), a signed infinity, or a NaN.  The
fraction is kept unnormalized so that every arithmetic step is plain
integer arithmetic (kernel-reducible); `F64Val.val` gives its rational
value. -/
inductive F64Val where
  | finite (num : Int) (den : Nat)
  | infinite (pos : Bool)
  | nan
deriving DecidableEq

/-- The exact rational value of a finite parsed `f64` (infinities and NaN
have no rational value; they are mapped to 0 and are never compared through
this function). -/
def F64Val.val : F64Val → ℚ
  | .finite num den => (num : ℚ) / (den : ℚ)
  | .infinite _ => 0
  | .nan => 0

/-- Value of a digit string, most significant first (`0` for the empty
list; only applied to all-digit lists). -/
def digitsToNat (l : List Char) : Nat :=
  l.foldl (fun acc c => acc * 10 + (c.toNat - 48)) 0

/-- Split a list at the first occurrence of `ch`: the part before it, and
(if present) the part after it. -/
def splitAtChar (ch : Char) : List Char → List Char × Option (List Char)
  | [] => ([], none)
  | c :: cs =>
    if c = ch then ([], some cs)
    else
      let r := splitAtChar ch cs
      (c :: r.1, r.2)

/-- Parse an optional exponent part (the characters after `e`/`E`):
optional sign then at least one digit. -/
def parseExp : Option (List Char) → Option Int
  | none => some 0
  | some e =>
    let sgn : Bool × List Char :=
      match e with
      | '+' :: r => (true, r)
      | '-' :: r => (false, r)
      | r => (true, r)
    if sgn.2 ≠ [] ∧ sgn.2.all Char.isDigit then
      some (if sgn.1 then (digitsToNat sgn.2 : Int) else -(digitsToNat sgn.2 : Int))
    else none

/-- Model of `str::parse::<f64>()` on the characters of the input. -/
def parseF64 (s : List Char) : Option F64Val :=
  let sgn : Bool × List Char :=
    match s with
    | '+' :: r => (true, r)
    | '-' :: r => (false, r)
    | r => (true, r)
  let low := sgn.2.map Char.toLower
  if low = [ 'i', 'n', 'f' ] ∨ low = "infinity".data then some (.infinite sgn.1)
  else if low = [ 'n', 'a', 'n' ] then some .nan
  else
    let me := splitAtChar 'e' low
    match parseExp me.2 with
    | none => none
    | some ex =>
      let ifr := splitAtChar '.' me.1
      let ip := ifr.1
      let fp := ifr.2.getD []
      if ip.all Char.isDigit ∧ fp.all Char.isDigit ∧ (ip ≠ [] ∨ fp ≠ []) then
        let mnum : Nat := digitsToNat ip * 10 ^ fp.length + digitsToNat fp
        let mden : Nat := 10 ^ fp.length
        let pnum : Nat := if 0 ≤ ex then mnum * 10 ^ ex.toNat else mnum
        let pden : Nat := if 0 ≤ ex then mden else mden * 10 ^ (-ex).toNat
        some (.finite (if sgn.1 then (pnum : Int) else -(pnum : Int)) pden)
      else none

/-- The guard `amount > 0.0 && amount <= 100000.0` of the stateful handler,
stated on the exact fraction by cross-multiplication (see `amountOk_correct`
below, which shows this agrees with the rational-value comparisons).
Comparisons against an infinity or a NaN never satisfy both bounds. -/
def amountOk : F64Val → Bool
  | .finite num den => decide (0 < num) && decide (num ≤ 100000 * (den : Int))
  | .infinite _ => false
  | .nan => false

/-- An amount input the `CollectingAmount` validator rejects: it fails to
parse, or it parses to a value that is not strictly positive or exceeds the
100000 ceiling. -/
def invalidAmount (s : List Char) : Bool :=
  match parseF64 s with
  | none => true
  | some v => ! amountOk v

/-- Models Rust `f64::to_string` for the values this flow stores.  Exact
decimal rendering of binary64 is not modelled (a finite value is shown as
its raw fraction); no verified property inspects this text. -/
def f64ToString : F64Val → String
  | .finite num den => toString num ++ "/" ++ toString den
  | .infinite true => "inf"
  | .infinite false => "-inf"
  | .nan => "NaN"

/-! ## Stateful session-flow handler (`references/ussd/stateful_example.rs`) -/

/-- `FlowState` of the stateful example. -/
inductive FlowState where
  | Initial
  | CollectingName
  | CollectingAmount
  | Confirming
  | Complete
deriving DecidableEq

/-- `SessionData`: the per-session flow phase plus the collected fields.
The Rust `HashMap<String, String>` is modelled as an association list with
replace-on-insert. -/
structure SessionData where
  state : FlowState
  data : List (String × String)
deriving DecidableEq

/-- The `Default` impl: phase `Initial`, empty field map. -/
def SessionData.mkDefault : SessionData :=
  ⟨.Initial, []⟩

/-- `HashMap::insert`, modelled on an association list (replace the first
binding of the key, else append). -/
def mapInsert (k v : String) : List (String × String) → List (String × String)
  | [] => [(k, v)]
  | (k', v') :: rest => if k' = k then (k, v) :: rest else (k', v') :: mapInsert k v rest

/-- `HashMap::get`, modelled on an association list. -/
def mapGet (k : String) : List (String × String) → Option String
  | [] => none
  | (k', v') :: rest => if k' = k then some v' else mapGet k rest

/-- The external session store: `get`/`put`/`delete` keyed by session id. -/
def Store : Type :=
  String → Option SessionData

/-- The store with no sessions. -/
def emptyStore : Store :=
  fun _ => none

/-- `AppState::get_session`: lookup with `unwrap_or_default()`. -/
def getSession (store : Store) (sid : String) : SessionData :=
  (store sid).getD SessionData.mkDefault

/-- One store mutation issued by the handler: `update_session` (a put) or
`clear_session` (a delete). -/
inductive StoreOp where
  | put (sid : String) (d : SessionData)
  | delete (sid : String)
deriving DecidableEq

/-- Apply one store mutation. -/
def applyOp (store : Store) : StoreOp → Store
  | .put sid d => fun k => if k = sid then some d else store k
  | .delete sid => fun k => if k = sid then none else store k

/-- Apply the handler's mutations in order. -/
def applyOps (store : Store) (ops : List StoreOp) : Store :=
  ops.foldl applyOp store

/-- Whitespace predicate behind Rust `str::trim`, modelled for the ASCII
range (no claim depends on non-ASCII whitespace). -/
def isWs (c : Char) : Bool :=
  c = ' ' || c = '\t' || c = '\n' || c = '\x0b' || c = '\x0c' || c = '\r'

/-- Rust `str::trim` on a character list. -/
def trimChars (l : List Char) : List Char :=
  ((l.dropWhile isWs).reverse.dropWhile isWs).reverse

/-- The `Initial`-phase welcome prompt of the stateful handler. -/
def welcomeMsg : String :=
  "Welcome to Money Transfer\n\nPlease enter recipient's name:"

/-- The confirmation-menu title.  Rust renders the amount with `{:.2}`
fixed-point formatting, modelled here by `f64ToString`; no verified property
inspects this text. -/
def confirmTitle (nm : String) (amount : F64Val) : String :=
  "Confirm transfer:\n\nRecipient: " ++ nm ++ "\nAmount: KES " ++ f64ToString amount
    ++ "\n\nConfirm?"

/-- The success message.  Rust re-parses the stored amount string, renders it
with `{:.2}` and embeds `chrono::Utc::now().timestamp()`; the numeric
rendering is modelled by the stored string and the clock by the explicit
`now` argument; no verified property inspects this text. -/
def successMsg (amountStr nm : String) (now : Int) : String :=
  "Success!\n\nSent KES " ++ amountStr ++ " to " ++ nm ++ "\n\nTransaction ID: TXN"
    ++ toString now

/-- `handle_stateful_ussd`: one interaction of the stateful flow.  Returns
the response together with the store mutations it issues (in order); the
Rust `session.data.get(..).unwrap()` calls are modelled with a default that
is never hit on stores reachable from the flow itself. -/
def handle_stateful_ussd (store : Store) (req : UssdRequest) (now : Int) :
    UssdResponse × List StoreOp :=
  match getSession store req.session_id with
  | ⟨.Initial, data⟩ =>
    (UssdResponse.continues welcomeMsg,
     [.put req.session_id ⟨.CollectingName, data⟩])
  | ⟨.CollectingName, data⟩ =>
    match req.current_input with
    | some nm =>
      if (trimChars nm).isEmpty then
        (UssdResponse.continues "Name cannot be empty.\nPlease enter recipient's name:", [])
      else
        (UssdResponse.continues "Enter amount to send (KES):",
         [.put req.session_id
            ⟨.CollectingAmount, mapInsert "recipient_name" (String.mk nm) data⟩])
    | none => (UssdResponse.ends "Invalid input. Please try again.", [])
  | ⟨.CollectingAmount, data⟩ =>
    match req.current_input with
    | some amount_str =>
      match parseF64 amount_str with
      | some amount =>
        if amountOk amount then
          let data' := mapInsert "amount" (f64ToString amount) data
          let nm := (mapGet "recipient_name" data').getD ""
          (((UssdMenu.new (confirmTitle nm amount)).add_option "1" "Yes, send money"
              |>.add_option "2" "Cancel").build_continue,
           [.put req.session_id ⟨.Confirming, data'⟩])
        else
          (UssdResponse.continues "Amount must be between 1 and 100,000.\nEnter amount:", [])
      | none => (UssdResponse.continues "Invalid amount.\nEnter amount (KES):", [])
    | none => (UssdResponse.ends "Invalid input. Please try again.", [])
  | ⟨.Confirming, data⟩ =>
    match req.current_input with
    | some choice =>
      if choice = [ '1' ] then
        let nm := (mapGet "recipient_name" data).getD ""
        let amountStr := (mapGet "amount" data).getD ""
        (UssdResponse.ends (successMsg amountStr nm now), [.delete req.session_id])
      else if choice = [ '2' ] then
        (UssdResponse.ends "Transaction cancelled.", [.delete req.session_id])
      else
        (UssdResponse.ends "Invalid option. Transaction cancelled.", [])
    | none => (UssdResponse.ends "Invalid input. Transaction cancelled.", [])
  | ⟨.Complete, _⟩ => (UssdResponse.ends "Session already completed.", [])

/-- One full interaction: run the handler and apply its mutations. -/
def stepStore (store : Store) (req : UssdRequest) (now : Int) : Store × UssdResponse :=
  let r := handle_stateful_ussd store req now
  (applyOps store r.2, r.1)

/-- Run a sequence of interactions (each with its clock value) through the
store. -/
def runSeq (store : Store) : List (UssdRequest × Int) → Store
  | [] => store
  | p :: rest => runSeq (stepStore store p.1 p.2).1 rest

/-! ## Concrete fixtures used to instantiate the theorems -/

/-- A request whose accumulated input ends with the delimiter. -/
def c5req : UssdRequest :=
  ⟨"sess1", "*384*123#", "+254712345678", "12*".data, "63902"⟩

/-- A request whose accumulated input has an empty middle segment. -/
def c6req : UssdRequest :=
  ⟨"sess1", "*384*123#", "+254712345678", "1**2".data, "63902"⟩

/-- A store holding one session in `CollectingAmount` with the name field
already collected. -/
def amtStore : Store :=
  fun k =>
    if k = "s1" then some ⟨.CollectingAmount, [("recipient_name", "John")]⟩ else none

/-- A store holding one session in `Confirming` with both fields collected. -/
def confStore : Store :=
  fun k =>
    if k = "s1" then
      some ⟨.Confirming, [("recipient_name", "John"), ("amount", "500")]⟩
    else none

/-- A store holding one session already in `Complete`. -/
def doneStore : Store :=
  fun k => if k = "s1" then some ⟨.Complete, []⟩ else none

/-- A store holding one session in `CollectingName` with nothing collected
yet. -/
def nameStore : Store :=
  fun k => if k = "s1" then some ⟨.CollectingName, []⟩ else none

/-- Interaction: a whitespace-only name submission (rejected by the
empty-name validator). -/
def reqBlank : UssdRequest :=
  ⟨"s1", "*384*123#", "+254712345678", " ".data, "63902"⟩

/-- Interaction: very first request of session `s1`. -/
def reqEmpty : UssdRequest :=
  ⟨"s1", "*384*123#", "+254712345678", "".data, "63902"⟩

/-- Interaction: the user has typed `John`. -/
def reqName : UssdRequest :=
  ⟨"s1", "*384*123#", "+254712345678", "John".data, "63902"⟩

/-- Interaction: the user typed `John` then `500`. -/
def req500 : UssdRequest :=
  ⟨"s1", "*384*123#", "+254712345678", "John*500".data, "63902"⟩

/-- Interaction: the user typed `John`, `500`, then confirm choice `1`. -/
def reqConfirm1 : UssdRequest :=
  ⟨"s1", "*384*123#", "+254712345678", "John*500*1".data, "63902"⟩

/-- Interaction: a further input `1` arriving after the confirm step. -/
def reqAfter : UssdRequest :=
  ⟨"s1", "*384*123#", "+254712345678", "John*500*1*1".data, "63902"⟩

/-- Interaction: confirmation answered with the undefined choice `3`. -/
def reqChoice3 : UssdRequest :=
  ⟨"s1", "*384*123#", "+254712345678", "John*500*3".data, "63902"⟩

/-- Interaction: amount submission `abc` (not a number). -/
def reqAbc : UssdRequest :=
  ⟨"s1", "*384*123#", "+254712345678", "John*abc".data, "63902"⟩

/-- Interaction: amount submission `-5` (not strictly positive). -/
def reqNeg : UssdRequest :=
  ⟨"s1", "*384*123#", "+254712345678", "John*-5".data, "63902"⟩

/-- The full happy-path sequence up to and including the confirm choice. -/
def confirmRun : List (UssdRequest × Int) :=
  [(reqEmpty, 0), (reqName, 0), (req500, 0), (reqConfirm1, 0)]

/-! ## Lemmas on the delimiter split -/

theorem splitOnStar_cons_star (cs : List Char) :
    splitOnStar ('*' :: cs) = [] :: splitOnStar cs := by
  simp [splitOnStar]

theorem splitOnStar_cons_ne (c : Char) (cs : List Char) (hc : c ≠ '*') (s : List Char)
    (ss : List (List Char)) (h : splitOnStar cs = s :: ss) :
    splitOnStar (c :: cs) = (c :: s) :: ss := by
  simp [splitOnStar, hc, h]

theorem splitOnStar_ne_nil (l : List Char) : splitOnStar l ≠ [] := by
  induction l with
  | nil => simp [splitOnStar]
  | cons c cs ih =>
    by_cases hc : c = '*'
    · subst hc
      rw [splitOnStar_cons_star]
      simp
    · cases h : splitOnStar cs with
      | nil => exact absurd h ih
      | cons s ss =>
        rw [splitOnStar_cons_ne c cs hc s ss h]
        simp

theorem length_splitOnStar (l : List Char) :
    (splitOnStar l).length = countStar l + 1 := by
  induction l with
  | nil => simp [splitOnStar, countStar]
  | cons c cs ih =>
    by_cases hc : c = '*'
    · subst hc
      rw [splitOnStar_cons_star]
      show (splitOnStar cs).length + 1 = ((if ('*' : Char) = '*' then 1 else 0) + countStar cs) + 1
      rw [if_pos rfl, ih]
      omega
    · cases h : splitOnStar cs with
      | nil => exact absurd h (splitOnStar_ne_nil cs)
      | cons s ss =>
        rw [splitOnStar_cons_ne c cs hc s ss h]
        rw [h] at ih
        simp only [List.length_cons] at ih ⊢
        simp only [countStar, if_neg hc]
        omega

theorem countStar_eq_zero {l : List Char} : countStar l = 0 ↔ '*' ∉ l := by
  induction l with
  | nil => simp [countStar]
  | cons c cs ih =>
    by_cases hc : c = '*'
    · subst hc
      simp only [countStar, if_pos rfl]
      constructor
      · intro h0
        exact ((by omega : ¬(1 + countStar cs = 0)) h0).elim
      · intro h0
        exact (h0 (List.mem_cons_self '*' cs)).elim
    · simp only [countStar, if_neg hc, Nat.zero_add, ih]
      constructor
      · intro h0 hm
        exact (List.mem_cons.mp hm).elim (fun he => hc he.symm) h0
      · intro h0 hm
        exact h0 (List.mem_cons_of_mem c hm)

theorem takeUntilStar_of_not_mem {l : List Char} (h : '*' ∉ l) :
    takeUntilStar l = l := by
  induction l with
  | nil => rfl
  | cons c cs ih =>
    simp only [List.mem_cons, not_or] at h
    have hc : c ≠ '*' := fun hh => h.1 hh.symm
    simp [takeUntilStar, hc, ih h.2]

theorem takeUntilStar_append_star (xs ys : List Char) :
    takeUntilStar (xs ++ '*' :: ys) = takeUntilStar xs := by
  induction xs with
  | nil => simp [takeUntilStar]
  | cons a as ih =>
    by_cases ha : a = '*' <;> simp [takeUntilStar, ha, ih]

theorem takeUntilStar_append_of_mem (xs ys : List Char) (h : '*' ∈ xs) :
    takeUntilStar (xs ++ ys) = takeUntilStar xs := by
  induction xs with
  | nil => cases h
  | cons a as ih =>
    by_cases ha : a = '*'
    · simp [takeUntilStar, ha]
    · have hmem : '*' ∈ as := by
        rcases List.mem_cons.mp h with h1 | h1
        · exact absurd h1.symm ha
        · exact h1
      simp [takeUntilStar, ha, ih hmem]

theorem afterLastStar_cons_star (cs : List Char) :
    afterLastStar ('*' :: cs) = afterLastStar cs := by
  simp only [afterLastStar, List.reverse_cons]
  rw [takeUntilStar_append_star]

theorem afterLastStar_cons_ne (c : Char) (cs : List Char) (hc : c ≠ '*') :
    afterLastStar (c :: cs) = if '*' ∈ cs then afterLastStar cs else c :: cs := by
  simp only [afterLastStar, List.reverse_cons]
  by_cases h : '*' ∈ cs
  · rw [takeUntilStar_append_of_mem _ _ (by simpa using h)]
    simp [h]
  · have hnm : '*' ∉ cs.reverse ++ [c] := by
      simp [h]
      exact fun hh => hc hh.symm
    rw [takeUntilStar_of_not_mem hnm]
    simp [h]

theorem getLast?_splitOnStar (l : List Char) :
    (splitOnStar l).getLast? = some (afterLastStar l) := by
  induction l with
  | nil => simp [splitOnStar, afterLastStar, takeUntilStar]
  | cons c cs ih =>
    by_cases hc : c = '*'
    · subst hc
      rw [splitOnStar_cons_star, afterLastStar_cons_star]
      cases h : splitOnStar cs with
      | nil => exact absurd h (splitOnStar_ne_nil cs)
      | cons s ss =>
        rw [List.getLast?_cons_cons]
        rw [h] at ih
        exact ih
    · rw [afterLastStar_cons_ne c cs hc]
      cases h : splitOnStar cs with
      | nil => exact absurd h (splitOnStar_ne_nil cs)
      | cons s ss =>
        rw [splitOnStar_cons_ne c cs hc s ss h]
        rw [h] at ih
        have hlen := length_splitOnStar cs
        rw [h] at hlen
        cases ss with
        | nil =>
          have h0 : countStar cs = 0 := by
            simp only [List.length_cons, List.length_nil] at hlen
            omega
          have hnm : '*' ∉ cs := countStar_eq_zero.mp h0
          have hcs : afterLastStar cs = cs := by
            unfold afterLastStar
            rw [takeUntilStar_of_not_mem (show ('*') ∉ cs.reverse by simpa using hnm)]
            exact List.reverse_reverse cs
          rw [if_neg hnm]
          have hs : s = cs := by
            rw [hcs] at ih
            simpa using ih
          rw [hs]
          simp
        | cons s2 ss2 =>
          have hmem : '*' ∈ cs := by
            by_contra hnm
            have h0 := countStar_eq_zero.mpr hnm
            rw [h0] at hlen
            simp only [List.length_cons] at hlen
            omega
          rw [if_pos hmem]
          rw [List.getLast?_cons_cons]
          rw [List.getLast?_cons_cons] at ih
          exact ih

/-! ## Claims about the request parser -/

/-- Claim C5: for every `UssdRequest`, `current_input()` is `None` iff `text`
is empty (`is_initial()` holds); otherwise it equals the substring of `text`
after the last `'*'` delimiter — in particular, when `text` is non-empty and
ends with `'*'`, `current_input()` is `Some` of the empty string, not
`None`. -/
theorem current_input_spec (r : UssdRequest) :
    (r.current_input = none ↔ r.is_initial = true) ∧
    (r.text ≠ [] → r.current_input = some (afterLastStar r.text)) ∧
    (r.text ≠ [] → r.text.getLast? = some '*' → r.current_input = some []) := by
  refine ⟨?_, ?_, ?_⟩
  · unfold UssdRequest.current_input UssdRequest.is_initial
    by_cases h : r.text.isEmpty
    · simp [h]
    · simp [h, getLast?_splitOnStar r.text]
  · intro h
    unfold UssdRequest.current_input
    rw [if_neg (by simpa using h)]
    exact getLast?_splitOnStar r.text
  · intro h hstar
    have h2 := getLast?_splitOnStar r.text
    have h3 : afterLastStar r.text = [] := by
      rcases htext : r.text.reverse with _ | ⟨c, rest⟩
      · exact absurd (by simpa using congrArg List.reverse htext) h
      · have hrev := List.head?_reverse r.text
        rw [htext] at hrev
        have hcstar : c = '*' := by
          rw [hstar] at hrev
          simpa using hrev
        subst hcstar
        simp [afterLastStar, htext, takeUntilStar]
    unfold UssdRequest.current_input
    rw [if_neg (by simpa using h), h2, h3]

/-- Witness for C5 at the concrete input `"12*"`: the trailing-delimiter
case yields `Some ""`. -/
theorem current_input_spec_witness :
    c5req.current_input = some (afterLastStar c5req.text) ∧
    c5req.current_input = some [] :=
  ⟨(current_input_spec c5req).2.1 (by decide),
   (current_input_spec c5req).2.2 (by decide) (by decide)⟩

/-- Claim C6: for every `UssdRequest`, `depth()` is `0` when `text` is empty
and the number of `'*'` occurrences plus one otherwise, and always equals the
number of segments of `navigation_path()` (empty segments preserved). -/
theorem depth_spec (r : UssdRequest) :
    (r.text = [] → r.depth = 0) ∧
    (r.text ≠ [] → r.depth = countStar r.text + 1) ∧
    r.depth = r.navigation_path.length := by
  refine ⟨?_, ?_, ?_⟩
  · intro h
    simp [UssdRequest.depth, h]
  · intro h
    unfold UssdRequest.depth
    rw [if_neg (by simpa using h)]
  · unfold UssdRequest.depth UssdRequest.navigation_path
    by_cases h : r.text.isEmpty
    · simp [h]
    · simp [h, length_splitOnStar]

/-- Witness for C6 at the concrete input `"1**2"` (empty middle segment):
depth is 3 and matches the 3-segment navigation path. -/
theorem depth_spec_witness :
    c6req.depth = countStar c6req.text + 1 ∧
    c6req.depth = c6req.navigation_path.length ∧
    c6req.navigation_path = [[ '1' ], [], [ '2' ]] :=
  ⟨(depth_spec c6req).2.1 (by decide), (depth_spec c6req).2.2, by decide⟩

/-! ## Claims about the response formatter and menu builder -/

/-- Claim C7: rendering `continues(m)` yields exactly `"CON " ++ m` and
rendering `ends(m)` yields exactly `"END " ++ m` — the four-character prefix
with its single trailing space and nothing else added. -/
theorem render_spec (m : String) :
    (UssdResponse.continues m).render = "CON " ++ m ∧
    (UssdResponse.ends m).render = "END " ++ m :=
  ⟨rfl, rfl⟩

theorem menu_foldl_go (opts : List (String × String)) (acc : String) :
    opts.foldl (fun result kl => result ++ ("\n" ++ kl.1 ++ ". " ++ kl.2)) acc =
    String.intercalate.go acc "\n" (opts.map fun p => p.1 ++ ". " ++ p.2) := by
  induction opts generalizing acc with
  | nil => rfl
  | cons p ps ih =>
    have hstep : (p :: ps).foldl (fun result kl => result ++ ("\n" ++ kl.1 ++ ". " ++ kl.2)) acc
        = ps.foldl (fun result kl => result ++ ("\n" ++ kl.1 ++ ". " ++ kl.2))
            (acc ++ ("\n" ++ p.1 ++ ". " ++ p.2)) := rfl
    have hgo : String.intercalate.go acc "\n" ((p :: ps).map fun q => q.1 ++ ". " ++ q.2)
        = String.intercalate.go (acc ++ "\n" ++ (p.1 ++ ". " ++ p.2)) "\n"
            (ps.map fun q => q.1 ++ ". " ++ q.2) := rfl
    rw [hstep, hgo, ih]
    congr 1
    simp [String.append_assoc]

/-- Claim C8: for every title and ordered option list, the menu renders as
the title followed by one `key ++ ". " ++ label` line per pair, joined by
newlines with no trailing newline, in insertion order; in particular the
menu `"T"` with options `("1","A"), ("2","B")` built as Continue renders to
exactly `"CON T\n1. A\n2. B"`. -/
theorem menu_render_spec :
    (∀ (title : String) (opts : List (String × String)),
      UssdMenu.format_menu ⟨title, opts⟩ = renderedMenu title opts) ∧
    ((((UssdMenu.new "T").add_option "1" "A").add_option "2" "B").build_continue.render
      = "CON T\n1. A\n2. B") := by
  constructor
  · intro title opts
    exact menu_foldl_go opts title
  · rfl

/-! ## Claim about the carrier lookup -/

/-- Claim C9: every code string absent from the static lookup table maps to
`Unknown` carrying exactly the original string (never a default known
carrier), whose name is the fixed placeholder `"Unknown Network"` and whose
country is `"Unknown"`; the functions are total by construction. -/
theorem from_code_unknown (code : String) (h : code ∉ knownCodes) :
    NetworkCode.from_code code = NetworkCode.Unknown code ∧
    (NetworkCode.from_code code).name = "Unknown Network" ∧
    (NetworkCode.from_code code).country = "Unknown" := by
  have hfc : NetworkCode.from_code code = NetworkCode.Unknown code := by
    unfold NetworkCode.from_code
    repeat rw [if_neg (by intro hh; exact h (by rw [hh]; decide))]
  refine ⟨hfc, ?_, ?_⟩ <;> rw [hfc] <;> rfl

/-- Witness for C9 at the concrete unmapped code `"00000"`. -/
theorem from_code_unknown_witness :
    NetworkCode.from_code "00000" = NetworkCode.Unknown "00000" ∧
    (NetworkCode.from_code "00000").name = "Unknown Network" ∧
    (NetworkCode.from_code "00000").country = "Unknown" :=
  from_code_unknown "00000" (by decide)

/-! ## Lemmas on the stateful handler -/

theorem handle_of_initial (store : Store) (req : UssdRequest) (now : Int)
    (d : List (String × String))
    (h : getSession store req.session_id = ⟨.Initial, d⟩) :
    handle_stateful_ussd store req now =
      (UssdResponse.continues welcomeMsg,
       [.put req.session_id ⟨.CollectingName, d⟩]) := by
  unfold handle_stateful_ussd
  rw [h]

theorem handle_of_complete (store : Store) (req : UssdRequest) (now : Int)
    (d : List (String × String))
    (h : getSession store req.session_id = ⟨.Complete, d⟩) :
    handle_stateful_ussd store req now =
      (UssdResponse.ends "Session already completed.", []) := by
  unfold handle_stateful_ussd
  rw [h]

theorem handle_amount_err (store : Store) (req : UssdRequest) (now : Int)
    (d : List (String × String)) (s : List Char)
    (h : getSession store req.session_id = ⟨.CollectingAmount, d⟩)
    (hin : req.current_input = some s)
    (hp : parseF64 s = none) :
    handle_stateful_ussd store req now =
      (UssdResponse.continues "Invalid amount.\nEnter amount (KES):", []) := by
  unfold handle_stateful_ussd
  rw [h, hin]
  simp [hp]

theorem handle_amount_range (store : Store) (req : UssdRequest) (now : Int)
    (d : List (String × String)) (s : List Char) (v : F64Val)
    (h : getSession store req.session_id = ⟨.CollectingAmount, d⟩)
    (hin : req.current_input = some s)
    (hp : parseF64 s = some v) (hv : amountOk v = false) :
    handle_stateful_ussd store req now =
      (UssdResponse.continues "Amount must be between 1 and 100,000.\nEnter amount:", []) := by
  unfold handle_stateful_ussd
  rw [h, hin]
  simp [hp, hv]

theorem handle_of_confirming_confirm (store : Store) (req : UssdRequest) (now : Int)
    (d : List (String × String))
    (h : getSession store req.session_id = ⟨.Confirming, d⟩)
    (hin : req.current_input = some [ '1' ]) :
    handle_stateful_ussd store req now =
      (UssdResponse.ends
        (successMsg ((mapGet "amount" d).getD "") ((mapGet "recipient_name" d).getD "") now),
       [.delete req.session_id]) := by
  unfold handle_stateful_ussd
  rw [h, hin]
  simp

theorem handle_amount_invalid (store : Store) (req : UssdRequest) (now : Int)
    (d : List (String × String)) (s : List Char)
    (h : getSession store req.session_id = ⟨.CollectingAmount, d⟩)
    (hin : req.current_input = some s)
    (hbad : invalidAmount s = true) :
    (handle_stateful_ussd store req now).1.is_continuing = true ∧
    (handle_stateful_ussd store req now).2 = [] := by
  unfold invalidAmount at hbad
  cases hp : parseF64 s with
  | none =>
    rw [handle_amount_err store req now d s h hin hp]
    exact ⟨rfl, rfl⟩
  | some v =>
    rw [hp] at hbad
    have hv : amountOk v = false := by simpa using hbad
    rw [handle_amount_range store req now d s v h hin hp hv]
    exact ⟨rfl, rfl⟩

theorem runSeq_invalid (store : Store) (sid : String) (d : List (String × String))
    (reqs : List (UssdRequest × Int))
    (hstore : store sid = some ⟨.CollectingAmount, d⟩) :
    (∀ p ∈ reqs, p.1.session_id = sid ∧
      ∃ s, p.1.current_input = some s ∧ invalidAmount s = true) →
    runSeq store reqs = store := by
  induction reqs with
  | nil => intro _; rfl
  | cons q qs ih =>
    intro hreqs
    obtain ⟨hq, s, hin, hbad⟩ := hreqs q (List.mem_cons_self q qs)
    have hges : getSession store q.1.session_id = ⟨.CollectingAmount, d⟩ := by
      unfold getSession
      rw [hq, hstore]
      rfl
    have hops := (handle_amount_invalid store q.1 q.2 d s hges hin hbad).2
    have hstep : (stepStore store q.1 q.2).1 = store := by
      show applyOps store (handle_stateful_ussd store q.1 q.2).2 = store
      rw [hops]
      rfl
    show runSeq (stepStore store q.1 q.2).1 qs = store
    rw [hstep]
    exact ih (fun p hp => hreqs p (List.mem_cons_of_mem q hp))

/-- Claim C4: in the `CollectingAmount` phase, every current input that does
not parse as a number, or parses to a non-positive value or one above the
100000 ceiling, is answered with a `Continue` directive, issues no store
mutation, and leaves the stored session (phase and field map) unchanged;
repeating such invalid submissions any number of times never advances the
phase nor alters previously collected fields. -/
theorem invalid_amount_frame (store : Store) (sid : String) (d : List (String × String))
    (reqs : List (UssdRequest × Int))
    (hstore : store sid = some ⟨.CollectingAmount, d⟩)
    (hreqs : ∀ p ∈ reqs, p.1.session_id = sid ∧
      ∃ s, p.1.current_input = some s ∧ invalidAmount s = true) :
    runSeq store reqs = store ∧
    ∀ p ∈ reqs, (handle_stateful_ussd store p.1 p.2).1.is_continuing = true ∧
      (handle_stateful_ussd store p.1 p.2).2 = [] := by
  refine ⟨runSeq_invalid store sid d reqs hstore hreqs, fun p hp => ?_⟩
  obtain ⟨hq, s, hin, hbad⟩ := hreqs p hp
  have hges : getSession store p.1.session_id = ⟨.CollectingAmount, d⟩ := by
    unfold getSession
    rw [hq, hstore]
    rfl
  exact handle_amount_invalid store p.1 p.2 d s hges hin hbad

/-- Witness for C4: the concrete store with a `CollectingAmount` session and
the concrete invalid submissions `"abc"` and `"-5"`. -/
theorem invalid_amount_frame_witness :
    runSeq amtStore [(reqAbc, 0), (reqNeg, 0)] = amtStore ∧
    ∀ p ∈ [(reqAbc, (0 : Int)), (reqNeg, 0)],
      (handle_stateful_ussd amtStore p.1 p.2).1.is_continuing = true ∧
      (handle_stateful_ussd amtStore p.1 p.2).2 = [] := by
  apply invalid_amount_frame amtStore "s1" [("recipient_name", "John")]
  · decide
  · intro p hp
    rcases List.mem_cons.mp hp with h1 | h2
    · subst h1
      exact ⟨rfl, "abc".data, by decide, by decide⟩
    · rcases List.mem_cons.mp h2 with h3 | h4
      · subst h3
        exact ⟨rfl, "-5".data, by decide, by decide⟩
      · cases h4

theorem amountOk_correct (num : Int) (den : Nat) (hden : 0 < den) :
    amountOk (.finite num den) =
      decide (0 < (F64Val.finite num den).val ∧ (F64Val.finite num den).val ≤ 100000) := by
  have hd : (0 : ℚ) < (den : ℚ) := by exact_mod_cast hden
  simp only [amountOk, F64Val.val]
  rw [← Bool.decide_and, decide_eq_decide]
  have h1 : 0 < (num : ℚ) / (den : ℚ) ↔ 0 < num := by
    rw [lt_div_iff₀ hd, zero_mul]
    exact_mod_cast Iff.rfl
  have h2 : (num : ℚ) / (den : ℚ) ≤ 100000 ↔ num ≤ 100000 * (den : Int) := by
    rw [div_le_iff₀ hd]
    constructor
    · intro hh
      exact_mod_cast (by linarith : (num : ℚ) ≤ 100000 * (den : ℚ))
    · intro hh
      have : (num : ℚ) ≤ 100000 * (den : ℚ) := by exact_mod_cast hh
      linarith
  rw [h1, h2]

/-! ## Claims about the stateful handler's store mutations -/

/-- Counterexample to claim C2: an interaction arriving in the
`CollectingAmount` phase with the non-numeric input `"abc"` performs zero
store mutations although its phase is not `Complete`, refuting
"exactly one mutation except in `Complete`". -/
theorem mutation_count_counterexample :
    (getSession amtStore reqAbc.session_id).state ≠ FlowState.Complete ∧
    ¬ ((handle_stateful_ussd amtStore reqAbc 0).2.length = 1) := by
  constructor
  · decide
  · decide

/-- Claim C2 (amended): every interaction performs at most one store
mutation; an interaction arriving in the `Complete` phase performs none, and
so do the non-advancing responses — a missing current input in any
non-`Initial` phase, a whitespace-only name in `CollectingName`, an invalid
amount in `CollectingAmount`, and an undefined confirmation choice in
`Confirming`. -/
theorem mutation_count (store : Store) (req : UssdRequest) (now : Int) :
    (handle_stateful_ussd store req now).2.length ≤ 1 ∧
    ((getSession store req.session_id).state = FlowState.Complete →
      (handle_stateful_ussd store req now).2 = []) ∧
    ((getSession store req.session_id).state ≠ FlowState.Initial →
      req.current_input = none →
      (handle_stateful_ussd store req now).2 = []) ∧
    (∀ nm, (getSession store req.session_id).state = FlowState.CollectingName →
      req.current_input = some nm → (trimChars nm).isEmpty = true →
      (handle_stateful_ussd store req now).2 = []) ∧
    (∀ s, (getSession store req.session_id).state = FlowState.CollectingAmount →
      req.current_input = some s → invalidAmount s = true →
      (handle_stateful_ussd store req now).2 = []) ∧
    (∀ s, (getSession store req.session_id).state = FlowState.Confirming →
      req.current_input = some s → s ≠ [ '1' ] → s ≠ [ '2' ] →
      (handle_stateful_ussd store req now).2 = []) := by
  refine ⟨?_, ?_, ?_, ?_, ?_, ?_⟩
  · rcases hges : getSession store req.session_id with ⟨st, data⟩
    unfold handle_stateful_ussd
    rw [hges]
    cases st
    case Initial => simp
    case Complete => simp
    case CollectingName =>
      cases hin : req.current_input with
      | none => simp
      | some s => by_cases ht : (trimChars s).isEmpty <;> simp [ht]
    case CollectingAmount =>
      cases hin : req.current_input with
      | none => simp
      | some s =>
        cases hp : parseF64 s with
        | none => simp [hp]
        | some v => by_cases hv : amountOk v <;> simp [hp, hv]
    case Confirming =>
      cases hin : req.current_input with
      | none => simp
      | some s =>
        by_cases h1 : s = [ '1' ]
        · simp [h1]
        · by_cases h2 : s = [ '2' ] <;> simp [h1, h2]
  · intro h
    rcases hges : getSession store req.session_id with ⟨st, data⟩
    rw [hges] at h
    have hst : st = FlowState.Complete := h
    subst hst
    rw [handle_of_complete store req now data hges]
  · intro hni hin
    rcases hges : getSession store req.session_id with ⟨st, data⟩
    rw [hges] at hni
    have hni' : st ≠ FlowState.Initial := hni
    unfold handle_stateful_ussd
    rw [hges]
    cases st
    case Initial => exact absurd rfl hni'
    case CollectingName => simp [hin]
    case CollectingAmount => simp [hin]
    case Confirming => simp [hin]
    case Complete => simp
  · intro nm hst hin ht
    rcases hges : getSession store req.session_id with ⟨st, data⟩
    rw [hges] at hst
    have hst' : st = FlowState.CollectingName := hst
    subst hst'
    unfold handle_stateful_ussd
    rw [hges]
    simp [hin, ht]
  · intro s hst hin hbad
    rcases hges : getSession store req.session_id with ⟨st, data⟩
    rw [hges] at hst
    have hst' : st = FlowState.CollectingAmount := hst
    subst hst'
    exact (handle_amount_invalid store req now data s hges hin hbad).2
  · intro s hst hin h1 h2
    rcases hges : getSession store req.session_id with ⟨st, data⟩
    rw [hges] at hst
    have hst' : st = FlowState.Confirming := hst
    subst hst'
    unfold handle_stateful_ussd
    rw [hges]
    simp [hin, h1, h2]

/-- Witness for C2 (amended), exercising each zero-mutation clause at a
concrete input: a `Complete` session, a missing input in
`CollectingAmount`, a whitespace-only name in `CollectingName`, the
non-numeric amount `"abc"`, and the undefined confirmation choice `"3"`. -/
theorem mutation_count_witness :
    (handle_stateful_ussd doneStore reqAfter 0).2 = [] ∧
    (handle_stateful_ussd amtStore reqEmpty 0).2 = [] ∧
    (handle_stateful_ussd nameStore reqBlank 0).2 = [] ∧
    (handle_stateful_ussd amtStore reqAbc 0).2 = [] ∧
    (handle_stateful_ussd confStore reqChoice3 0).2 = [] :=
  ⟨(mutation_count doneStore reqAfter 0).2.1 (by decide),
   (mutation_count amtStore reqEmpty 0).2.2.1 (by decide) (by decide),
   (mutation_count nameStore reqBlank 0).2.2.2.1 [ ' ' ] (by decide) (by decide) (by decide),
   (mutation_count amtStore reqAbc 0).2.2.2.2.1 "abc".data (by decide) (by decide) (by decide),
   (mutation_count confStore reqChoice3 0).2.2.2.2.2 "3".data
     (by decide) (by decide) (by decide) (by decide)⟩

/-- Claim C3 (behavior of the code at the failing input): in `Confirming`,
the undefined choice `"3"` is answered with the invalid-option `Terminate`
message but issues no store mutation, so the session entry persists in the
store after the interaction. -/
theorem confirm_invalid_choice_keeps_entry :
    (handle_stateful_ussd confStore reqChoice3 0).1
        = UssdResponse.ends "Invalid option. Transaction cancelled." ∧
    (handle_stateful_ussd confStore reqChoice3 0).2 = [] ∧
    (stepStore confStore reqChoice3 0).1 "s1"
        = some ⟨.Confirming, [("recipient_name", "John"), ("amount", "500")]⟩ := by
  refine ⟨?_, ?_, ?_⟩ <;> decide

/-! ## Claims about session completion -/

/-- Counterexample to claim C1: running the full flow (`""`, `"John"`,
`"John*500"`, confirm with `"1"`) from the empty store and then sending a
further interaction with the same `session_id` yields the `Initial`-phase
welcome `Continue` prompt — the flow restarts — and not the
"Session already completed." `Terminate` message. -/
theorem completed_session_counterexample :
    (stepStore (runSeq emptyStore confirmRun) reqAfter 0).2
        = UssdResponse.continues welcomeMsg ∧
    (stepStore (runSeq emptyStore confirmRun) reqAfter 0).2
        ≠ UssdResponse.ends "Session already completed." := by
  refine ⟨?_, ?_⟩ <;> decide

/-- Claim C1 (amended): after a `Confirming` interaction whose choice input
is the confirm option `"1"`, the session entry is deleted from the store, and
every subsequent interaction carrying the same `session_id` is answered by
restarting the flow from `Initial` — the welcome `Continue` prompt, with the
session re-created in `CollectingName` — never by the fixed
"Session already completed." `Terminate` message (which is emitted only for
a stored `Complete` phase that the handler never writes). -/
theorem completed_session_restarts (store : Store) (req req2 : UssdRequest)
    (now now2 : Int) (d : List (String × String))
    (hstore : getSession store req.session_id = ⟨.Confirming, d⟩)
    (hin : req.current_input = some [ '1' ])
    (hsid : req2.session_id = req.session_id) :
    (stepStore store req now).1 req.session_id = none ∧
    handle_stateful_ussd (stepStore store req now).1 req2 now2 =
      (UssdResponse.continues welcomeMsg,
       [.put req2.session_id ⟨.CollectingName, []⟩]) := by
  have h1 := handle_of_confirming_confirm store req now d hstore hin
  have hdel : (stepStore store req now).1 req.session_id = none := by
    show applyOps store (handle_stateful_ussd store req now).2 req.session_id = none
    rw [h1]
    show (if req.session_id = req.session_id then none else store req.session_id) = none
    rw [if_pos rfl]
  refine ⟨hdel, ?_⟩
  have hges : getSession (stepStore store req now).1 req2.session_id = ⟨.Initial, []⟩ := by
    unfold getSession
    rw [hsid, hdel]
    rfl
  exact handle_of_initial _ req2 now2 [] hges

/-- Witness for C1 (amended): the concrete `Confirming` store confirmed with
`"1"` and then a further interaction. -/
theorem completed_session_restarts_witness :
    (stepStore confStore reqConfirm1 0).1 "s1" = none ∧
    handle_stateful_ussd (stepStore confStore reqConfirm1 0).1 reqAfter 0 =
      (UssdResponse.continues welcomeMsg,
       [.put "s1" ⟨.CollectingName, []⟩]) :=
  completed_session_restarts confStore reqConfirm1 reqAfter 0 0
    [("recipient_name", "John"), ("amount", "500")]
    (by decide) (by decide) (by decide)

/-! ## Claim C10: the `Complete` phase is never stored -/

theorem applyOps_no_complete (ops : List StoreOp) (store : Store)
    (hstore : ∀ sid d, store sid = some d → d.state ≠ FlowState.Complete)
    (hops : ∀ op ∈ ops, ∀ sid d, op = StoreOp.put sid d → d.state ≠ FlowState.Complete) :
    ∀ sid d, applyOps store ops sid = some d → d.state ≠ FlowState.Complete := by
  induction ops generalizing store with
  | nil => exact hstore
  | cons op ops ih =>
    show ∀ sid d, applyOps (applyOp store op) ops sid = some d → _
    apply ih (applyOp store op) ?_ (fun o ho => hops o (List.mem_cons_of_mem op ho))
    intro sid d hsd
    cases op with
    | put sid2 d2 =>
      dsimp [applyOp] at hsd
      by_cases hk : sid = sid2
      · rw [if_pos hk] at hsd
        have hd2 : d2 = d := Option.some.inj hsd
        rw [← hd2]
        exact hops (StoreOp.put sid2 d2) (List.mem_cons_self _ _) sid2 d2 rfl
      · rw [if_neg hk] at hsd
        exact hstore sid d hsd
    | delete sid2 =>
      dsimp [applyOp] at hsd
      by_cases hk : sid = sid2
      · rw [if_pos hk] at hsd
        cases hsd
      · rw [if_neg hk] at hsd
        exact hstore sid d hsd

theorem handle_ops_no_complete (store : Store) (req : UssdRequest) (now : Int) :
    ∀ op ∈ (handle_stateful_ussd store req now).2, ∀ sid d,
      op = StoreOp.put sid d → d.state ≠ FlowState.Complete := by
  rcases hges : getSession store req.session_id with ⟨st, data⟩
  unfold handle_stateful_ussd
  rw [hges]
  cases st
  case Initial =>
    intro op hop sid d heq
    simp at hop
    subst hop
    cases heq
    simp
  case Complete =>
    intro op hop sid d heq
    simp at hop
  case CollectingName =>
    cases hin : req.current_input with
    | none =>
      intro op hop sid d heq
      simp at hop
    | some s =>
      by_cases ht : (trimChars s).isEmpty <;> intro op hop sid d heq <;> simp [ht] at hop
      subst hop
      cases heq
      simp
  case CollectingAmount =>
    cases hin : req.current_input with
    | none =>
      intro op hop sid d heq
      simp at hop
    | some s =>
      cases hp : parseF64 s with
      | none =>
        intro op hop sid d heq
        simp [hp] at hop
      | some v =>
        by_cases hv : amountOk v <;> intro op hop sid d heq <;> simp [hp, hv] at hop
        subst hop
        cases heq
        simp
  case Confirming =>
    cases hin : req.current_input with
    | none =>
      intro op hop sid d heq
      simp at hop
    | some s =>
      by_cases h1 : s = [ '1' ]
      · intro op hop sid d heq
        simp [h1] at hop
        subst hop
        cases heq
      · by_cases h2 : s = [ '2' ] <;> intro op hop sid d heq <;> simp [h1, h2] at hop
        subst hop
        cases heq

/-- Claim C10 (implicit): starting from the empty store, after any sequence
of interactions no stored session ever has phase `Complete` — completion is
represented only by deletion, a fresh lookup defaults to `Initial`, and so
the handler's `Complete` branch is unreachable from any reachable store. -/
theorem no_complete_stored (reqs : List (UssdRequest × Int)) :
    (∀ sid d, runSeq emptyStore reqs sid = some d → d.state ≠ FlowState.Complete) ∧
    ∀ sid, (getSession (runSeq emptyStore reqs) sid).state ≠ FlowState.Complete := by
  have main : ∀ (rs : List (UssdRequest × Int)) (store : Store),
      (∀ sid d, store sid = some d → d.state ≠ FlowState.Complete) →
      ∀ sid d, runSeq store rs sid = some d → d.state ≠ FlowState.Complete := by
    intro rs
    induction rs with
    | nil => intro store h; exact h
    | cons q qs ih =>
      intro store h
      show ∀ sid d, runSeq (stepStore store q.1 q.2).1 qs sid = some d → _
      apply ih
      show ∀ sid d, applyOps store (handle_stateful_ussd store q.1 q.2).2 sid = some d → _
      exact applyOps_no_complete _ store h (handle_ops_no_complete store q.1 q.2)
  have h0 : ∀ sid d, emptyStore sid = some d → d.state ≠ FlowState.Complete := by
    intro sid d h
    simp [emptyStore] at h
  refine ⟨main reqs emptyStore h0, ?_⟩
  intro sid
  rcases hv : runSeq emptyStore reqs sid with _ | d
  · unfold getSession
    rw [hv]
    simp [SessionData.mkDefault]
  · unfold getSession
    rw [hv]
    simpa using main reqs emptyStore h0 sid d hv

/-- Witness for C10: after the single initial interaction the stored session
is in `CollectingName`, not `Complete`. -/
theorem no_complete_stored_witness :
    runSeq emptyStore [(reqEmpty, 0)] "s1" = some ⟨FlowState.CollectingName, []⟩ ∧
    (SessionData.mk FlowState.CollectingName []).state ≠ FlowState.Complete :=
  ⟨by decide,
   (no_complete_stored [(reqEmpty, 0)]).1 "s1" ⟨FlowState.CollectingName, []⟩ (by decide)⟩
